import Mathlib

/-!
Verification development for interview_notify.py (ftc2/interview-notify).

The Python script watches a directory of IRC logs, tails the most recently
modified file, and pushes a notification when a line matches one of five
trigger rules.  This file gives a shallow embedding of the script in Lean:

* pure string helpers model the Python substring test (`needle in hay`),
  `str.lower()`, `str.split(",")` and the regex `re.sub("<.*?>", "", text)`;
* `check_trigger`, `check_words`, `bot_nick_prefixes` (source:
  `bot_nick_prefix`), `remove_html_tags` and the dispatch chain of
  `log_parse` are translated line by line from the source;
* `find_latest_log` is modelled over an explicit directory listing, with
  CPython `max(files, key=...)` semantics (first maximal element wins);
* `tail` is modelled at line granularity over a file with a fixed initial
  content and a list of lines appended after the tailer starts;
* the scanner / parser-thread orchestration of `log_scan` is modelled as a
  small-step transition system `Step` with explicit thread liveness,
  including the CPython semantics of `sys.exit()` inside a non-main
  thread: `SystemExit` terminates only that thread, not the process.
-/

namespace InterviewNotify

/-- Python substring test `needle in hay`, on character lists: true iff
`needle` occurs contiguously in `hay` (the empty needle always occurs). -/
def contains_aux (needle : List Char) : List Char → Bool
  | [] => needle.isEmpty
  | c :: t => needle.isPrefixOf (c :: t) || contains_aux needle t

/-- Python substring test `needle in hay` on strings. -/
def str_contains (hay needle : String) : Bool :=
  contains_aux needle.data hay.data

/-- Python `str.lower()` (ASCII case folding, which is all the script needs:
triggers and nicks in the claims are ASCII). -/
def py_lower (s : String) : String :=
  ⟨s.data.map Char.toLower⟩

/-- Worker for `py_split_comma`: accumulate the current field (reversed) and
start a new field at each comma. -/
def split_comma_go (acc : List Char) : List Char → List (List Char)
  | [] => [acc.reverse]
  | c :: t =>
    if c = ',' then acc.reverse :: split_comma_go [] t
    else split_comma_go (c :: acc) t

/-- Python `str.split(",")`; in particular the empty string splits to
`[""]`, and a trailing comma yields a trailing empty field. -/
def py_split_comma (s : String) : List String :=
  (split_comma_go [] s.data).map (fun cs => ⟨cs⟩)

/-- Helper for the regex `<.*?>` of `remove_html_tags`: starting just after
a literal `<`, the lazy `.*?>` consumes up to the first `>`; `.` does not
match a newline, so the match fails if a newline (or the end of the string)
comes first.  Returns the remainder after the consumed `>` on success. -/
def chop_tag : List Char → Option (List Char)
  | [] => none
  | c :: rest =>
    if c = '>' then some rest
    else if c = '\n' then none
    else chop_tag rest

/-- `re.sub(re.compile("<.*?>"), "", text)` on character lists: scan left to
right; at each `<`, try to complete a lazy tag match with `chop_tag`; on
success drop the matched span and continue after it (matches are
non-overlapping), otherwise keep the `<` and move on.  The recursion is
driven by a fuel argument so that it is structural (and so evaluates inside
the kernel); every step consumes at least one character, so fuel equal to
the length of the list is always enough (`strip_tags_go_fuel`). -/
def strip_tags_go : Nat → List Char → List Char
  | _, [] => []
  | 0, c :: rest => c :: rest
  | fuel + 1, c :: rest =>
    if c = '<' then
      match chop_tag rest with
      | some rest2 => strip_tags_go fuel rest2
      | none => c :: strip_tags_go fuel rest
    else c :: strip_tags_go fuel rest

/-- Source `remove_html_tags`: remove html tags from a string. -/
def remove_html_tags (text : String) : String :=
  ⟨strip_tags_go text.data.length text.data⟩

/-- The configuration surface the core reads from `args`. -/
structure Args where
  /-- `args.nick`: the operator identifier. -/
  nick : String
  /-- `args.check_bot_nicks`: whether the bot-prefix qualification is on. -/
  check_bot_nicks : Bool
  /-- `args.bot_nicks`: raw comma-separated list of bot nicks. -/
  bot_nicks : String
deriving DecidableEq, Repr

/-- Source `bot_nick_prefix`: prefix a trigger with each configured bot nick
(`"{nick}> {trigger}"`). -/
def bot_nick_prefixes (a : Args) (trigger : String) : List String :=
  (py_split_comma a.bot_nicks).map (fun nick => nick ++ "> " ++ trigger)

/-- Source `check_trigger(line, trigger, disregard_bot_nicks=False)`:
when the bot-prefix qualification is off (either disregarded by the caller
or disabled by configuration), test the trigger against the tag-stripped
line; otherwise test each bot-prefixed trigger against the raw line. -/
def check_trigger (a : Args) (line trigger : String)
    (disregard_bot_nicks : Bool) : Bool :=
  if disregard_bot_nicks || !a.check_bot_nicks then
    str_contains (remove_html_tags line) trigger
  else
    (bot_nick_prefixes a trigger).any (fun t => str_contains line t)

/-- Source `check_words(line, triggers, check_nick=False)`: some trigger and
some bot nick (and, with `check_nick`, the user nick) all appear in the line;
only the trigger is matched against the lowercased line. -/
def check_words (a : Args) (line : String) (triggers : List String)
    (check_nick : Bool) : Bool :=
  triggers.any (fun trigger =>
    (py_split_comma a.bot_nicks).any (fun bot =>
      if check_nick then
        str_contains line a.nick && str_contains line bot &&
          str_contains (py_lower line) trigger
      else
        str_contains line bot && str_contains line trigger))

/-- One outbound push: the `notify(line, title=..., tags=..., priority=...)`
payload; `priority` is `none` when the call omits it. -/
structure Notification where
  body : String
  title : String
  tags : String
  priority : Option Nat
deriving DecidableEq, Repr

/-- Payload of the self-interview rule (`log_parse`, first branch). -/
def notif_self (line : String) : Notification :=
  ⟨line, "Your interview is happening❗", "rotating_light", some 5⟩

/-- Payload of the someone-else-interview rule (second branch). -/
def notif_other (line : String) : Notification :=
  ⟨line, "Interview detected", "warning", none⟩

/-- Payload of the mention rule (third branch). -/
def notif_mention (line : String) : Notification :=
  ⟨line, "You\x27ve been mentioned", "wave", none⟩

/-- Payload of the netsplit rule (fourth branch). -/
def notif_netsplit (line : String) : Notification :=
  ⟨line, "Netsplit detected – requeue within 10min!", "electric_plug", some 5⟩

/-- Payload of the kick rule (fifth branch). -/
def notif_kick (line : String) : Notification :=
  ⟨line, "You\x27ve been kicked – rejoin & requeue ASAP!", "anger", some 5⟩

/-- Rule 1, self-interview:
`check_trigger(line, "Currently interviewing: {args.nick}")`. -/
def rule_self (a : Args) (line : String) : Bool :=
  check_trigger a line ("Currently interviewing: " ++ a.nick) false

/-- Rule 2, someone-else interview:
`check_trigger(line, "Currently interviewing:")`. -/
def rule_other (a : Args) (line : String) : Bool :=
  check_trigger a line "Currently interviewing:" false

/-- Rule 3, mention:
`check_trigger(line, "{args.nick}:", disregard_bot_nicks=True)`. -/
def rule_mention (a : Args) (line : String) : Bool :=
  check_trigger a line (a.nick ++ ":") true

/-- The netsplit keyword list of `log_parse`. -/
def netsplit_words : List String :=
  ["quit", "disconnect", "part", "left", "leave", "net", "split"]

/-- Rule 4, netsplit: `check_words(line, triggers=[...])`. -/
def rule_netsplit (a : Args) (line : String) : Bool :=
  check_words a line netsplit_words false

/-- Rule 5, kick: `check_words(line, triggers=["kick"], check_nick=True)`. -/
def rule_kick (a : Args) (line : String) : Bool :=
  check_words a line ["kick"] true

/-- The `if / elif` dispatch chain of `log_parse`, applied to one line:
at most one notification is produced, the first matching rule chooses it. -/
def dispatch_line (a : Args) (line : String) : Option Notification :=
  if rule_self a line then some (notif_self line)
  else if rule_other a line then some (notif_other line)
  else if rule_mention a line then some (notif_mention line)
  else if rule_netsplit a line then some (notif_netsplit line)
  else if rule_kick a line then some (notif_kick line)
  else none

/-- The five rules as an ordered table of predicate and payload builder. -/
def rule_table (a : Args) : List ((String → Bool) × (String → Notification)) :=
  [(rule_self a, notif_self), (rule_other a, notif_other),
   (rule_mention a, notif_mention), (rule_netsplit a, notif_netsplit),
   (rule_kick a, notif_kick)]

/-- First-match-wins evaluation of an ordered rule table. -/
def first_match (a : Args) (line : String) : Option Notification :=
  (rule_table a).findSome? (fun r => if r.1 line then some (r.2 line) else none)

/-! ## Directory scanning (`find_latest_log`)

A directory listing is modelled as the list of entries in the order
`Path.iterdir` happens to produce them; that order is OS-dependent and is
not specified (in particular it need not be lexicographic). -/

/-- One entry of the watched directory, as seen by `find_latest_log`. -/
structure DirEnt where
  /-- `f.name`. -/
  name : String
  /-- `f.is_file()`. -/
  is_file : Bool
  /-- `f.stat().st_mtime` (modelled at integer resolution; only the order
  of timestamps matters to the scanner). -/
  mtime : Nat
deriving DecidableEq, Repr

/-- The filter of `find_latest_log`:
`[f for f in args.path.iterdir() if f.is_file() and f.name not in [".DS_Store", "thumbs.db"]]`. -/
def eligible (listing : List DirEnt) : List DirEnt :=
  listing.filter (fun f =>
    f.is_file && !(f.name == ".DS_Store" || f.name == "thumbs.db"))

/-- CPython `max(files, key=...)`: fold keeping the current maximum and
replacing it only on a strictly greater key, so the first element with the
maximal key wins.  Returns `none` on an empty list. -/
def py_max_by (key : DirEnt → Nat) : List DirEnt → Option DirEnt
  | [] => none
  | x :: xs => some (xs.foldl (fun acc y => if key acc < key y then y else acc) x)

/-- Source `find_latest_log`: filter the listing, and on an empty result
call `crit_quit("no log files found")` — modelled as `none` (the caller
raises `SystemExit`); otherwise take the `max` by modification time. -/
def find_latest_log (listing : List DirEnt) : Option DirEnt :=
  let files := eligible listing
  if files.isEmpty then none
  else py_max_by (fun f => f.mtime) files

/-! ## The tailer (`tail`)

`tail` is modelled at line granularity: a `TailFile` is a file with the
lines it contained when the tailer started plus the lines appended to it
afterwards, in append order (the script assumes append-only logs).  The
source first reads the last pre-existing line with `FileReadBackwards`
(yielding it only if non-empty: `if last_line:`), then opens the file,
seeks to the end — line position `initial.length` — and repeatedly calls
`readline`, yielding every line that appears at or after the cursor. -/

/-- A tailed file: content at tailer start plus lines appended later. -/
structure TailFile where
  initial : List String
  appended : List String
deriving DecidableEq, Repr

/-- The polling `readline` loop of `tail`, absent cancellation: starting
from line position `pos` of the (final) file content, read and yield every
line from the cursor onwards, advancing the cursor by one per yield. -/
def read_lines (content : List String) (pos : Nat) : List String :=
  if h : pos < content.length then
    content.get ⟨pos, h⟩ :: read_lines content (pos + 1)
  else []
termination_by content.length - pos
decreasing_by exact Nat.sub_succ_lt_self _ _ h

/-- The `FileReadBackwards` phase of `tail`: the most recent pre-existing
line, yielded only if it is non-empty (`if last_line:`). -/
def last_line_yield (f : TailFile) : List String :=
  match f.initial.getLast? with
  | some l => if l = "" then [] else [l]
  | none => []

/-- Everything `tail` yields for a file, absent cancellation: the last
pre-existing line first, then the polling loop started at end-of-file
(line position `f.initial.length`) over the file as finally appended. -/
def tail_yields (f : TailFile) : List String :=
  last_line_yield f ++ read_lines (f.initial ++ f.appended) f.initial.length

/-! ## The scanner and parser-thread orchestration (`log_scan`)

`log_scan` runs in a (non-main) scanner thread.  It spawns a parser thread
(`spawn_parser` / `log_parse`) on the latest log and then polls the
directory; on a change it sets the parser's stop event, joins it, and only
then spawns the parser for the new file.  `crit_quit` does
`logging.critical(msg); sys.exit()`; in CPython, `sys.exit()` raises
`SystemExit`, and an uncaught `SystemExit` in a non-main thread terminates
only that thread — the process keeps running as long as any other
non-daemon thread (such as an active parser thread) is alive.

The model is a small-step transition system.  A `Worker` is one parser
thread; `Sys.retired` keeps every worker the scanner has already joined
(ghost state, for stating the at-most-one-alive invariant), `Sys.cur` is
the worker the scanner currently tracks, and `Sys.trace` records every
line yielded, tagged with the id of the worker that yielded it. -/

/-- One parser thread (`spawn_parser` result plus its `parser_stop` event). -/
structure Worker where
  /-- Spawn sequence number (ghost; identifies the thread). -/
  wid : Nat
  /-- The log file this worker tails. -/
  file : String
  /-- Whether `parser_stop.set()` has been called. -/
  stop_set : Bool
  /-- Whether the thread is still running (its `tail` loop has not
  returned); while running it holds its log file open. -/
  alive : Bool
deriving DecidableEq, Repr

/-- What the scanner thread is doing. -/
inductive ScanPhase where
  /-- In the `while True` polling loop of `log_scan`. -/
  | polling : ScanPhase
  /-- Blocked in `parser.join()`, about to spawn a parser for this file. -/
  | joining : String → ScanPhase
  /-- Terminated by the `SystemExit` that `crit_quit` raises; only this
  thread ends, per CPython threading semantics. -/
  | dead : ScanPhase
deriving DecidableEq, Repr

/-- Global state of the scanner thread and all parser threads. -/
structure Sys where
  phase : ScanPhase
  /-- Workers already replaced after a completed `parser.join()` (ghost). -/
  retired : List Worker
  /-- The worker the scanner currently tracks (`parser, parser_stop`). -/
  cur : Option Worker
  /-- Next spawn sequence number (ghost). -/
  next_id : Nat
  /-- All `(worker id, line)` yields so far, in global order (ghost). -/
  trace : List (Nat × String)
deriving DecidableEq, Repr

/-- State right after lines 36-39 of the source: the first
`find_latest_log` returned `file`, and its parser thread was spawned and
started. -/
def init_sys (file : String) : Sys :=
  ⟨ScanPhase.polling, [], some ⟨0, file, false, true⟩, 1, []⟩

/-- Startup of `log_scan` on a directory with the given listing: the first
`find_latest_log` either picks a file (and the system starts) or executes
`crit_quit` before any parser thread exists — `none`, in which case the
scanner thread dies and, the main thread having finished, the process ends. -/
def startup (listing : List DirEnt) : Option Sys :=
  (find_latest_log listing).map (fun ent => init_sys ent.name)

/-- One interleaved step of the scanner thread or of a parser thread. -/
inductive Step : Sys → Sys → Prop where
  /-- A scanner poll sees a latest log different from the current one:
  `parser_stop.set()` and enter `parser.join()`. -/
  | poll_rotate (s : Sys) (listing : List DirEnt) (w : Worker) (ent : DirEnt) :
      s.phase = ScanPhase.polling → s.cur = some w →
      find_latest_log listing = some ent → ent.name ≠ w.file →
      Step s { s with phase := ScanPhase.joining ent.name,
                      cur := some { w with stop_set := true } }
  /-- A scanner poll sees zero eligible files: `crit_quit` raises
  `SystemExit` inside the scanner thread, which kills only that thread. -/
  | poll_empty (s : Sys) (listing : List DirEnt) :
      s.phase = ScanPhase.polling → eligible listing = [] →
      Step s { s with phase := ScanPhase.dead }
  /-- A running parser thread reads an appended line and yields it (this
  needs no cooperation from the scanner and is possible in any phase,
  including after the scanner died). -/
  | worker_yield (s : Sys) (w : Worker) (l : String) :
      s.cur = some w → w.alive = true →
      Step s { s with trace := s.trace ++ [(w.wid, l)] }
  /-- A parser thread whose stop event is set observes it at the top of its
  polling loop and returns, closing its file.  A worker whose stop event is
  not set never exits: its `while not parser_stop.is_set()` loop is
  infinite. -/
  | worker_exit (s : Sys) (w : Worker) :
      s.cur = some w → w.stop_set = true → w.alive = true →
      Step s { s with cur := some { w with alive := false } }
  /-- `parser.join()` returns — only possible once the joined thread has
  exited — and the scanner immediately spawns and starts the parser for
  the new file. -/
  | join_spawn (s : Sys) (w : Worker) (f : String) :
      s.phase = ScanPhase.joining f → s.cur = some w → w.alive = false →
      Step s { s with phase := ScanPhase.polling,
                      retired := s.retired ++ [w],
                      cur := some ⟨s.next_id, f, false, true⟩,
                      next_id := s.next_id + 1 }

/-- States reachable from a started system. -/
inductive Reach : Sys → Prop where
  | start (file : String) : Reach (init_sys file)
  | step {s t : Sys} : Reach s → Step s t → Reach t

/-- The scanner thread is still running. -/
def scanner_alive (s : Sys) : Bool :=
  decide (s.phase ≠ ScanPhase.dead)

/-- Number of parser threads currently running (equivalently, of open log
file handles: a parser holds its file open exactly while it runs). -/
def worker_alive_count (s : Sys) : Nat :=
  (s.retired ++ s.cur.toList).countP (fun w => w.alive)

/-- The process is still running: some non-daemon thread is alive (the
main thread returns right after startup, so the scanner and the parser
threads are what keeps the interpreter alive). -/
def process_live (s : Sys) : Bool :=
  scanner_alive s || decide (0 < worker_alive_count s)

/-- Inductive invariant of the orchestration: every retired worker has
exited, the current worker carries the newest id, all yields so far carry
ids no larger than the current worker id, and the yield trace has
non-decreasing worker ids. -/
def SysInv (s : Sys) : Prop :=
  (∀ w ∈ s.retired, w.alive = false) ∧
  (∀ w, s.cur = some w → w.wid < s.next_id) ∧
  (∀ p ∈ s.trace, ∀ w, s.cur = some w → p.1 ≤ w.wid) ∧
  List.Chain' (fun a b => a.1 ≤ b.1) s.trace

/-! ## Supporting lemmas -/

/-- A successful lazy tag match consumes at least the closing `>`. -/
theorem chop_tag_length {l r : List Char} (h : chop_tag l = some r) :
    r.length < l.length := by
  induction l with
  | nil => simp [chop_tag] at h
  | cons c rest ih =>
    unfold chop_tag at h
    split at h
    · cases h; simp
    · split at h
      · cases h
      · exact Nat.lt_trans (ih h) (by simp)

/-- Any fuel at least the length of the input gives the same result, so the
fuel in `remove_html_tags` is an implementation device, not a semantic cap. -/
theorem strip_tags_go_fuel :
    ∀ (f1 : Nat) (cs : List Char) (f2 : Nat), cs.length ≤ f1 → cs.length ≤ f2 →
      strip_tags_go f1 cs = strip_tags_go f2 cs := by
  intro f1
  induction f1 with
  | zero =>
    intro cs f2 h1 h2
    have hnil : cs = [] := List.eq_nil_of_length_eq_zero (Nat.le_zero.mp h1)
    subst hnil
    cases f2 <;> rfl
  | succ f ih =>
    intro cs f2 h1 h2
    cases cs with
    | nil => cases f2 <;> rfl
    | cons c rest =>
      cases f2 with
      | zero => exact absurd h2 (by simp)
      | succ f2 =>
        have hr1 : rest.length ≤ f := by simpa using h1
        have hr2 : rest.length ≤ f2 := by simpa using h2
        by_cases hc : c = '<'
        · subst hc
          cases htag : chop_tag rest with
          | some rest2 =>
            have hl := chop_tag_length htag
            simp only [strip_tags_go, if_pos rfl, htag]
            exact ih rest2 f2 (Nat.le_of_lt (Nat.lt_of_lt_of_le hl hr1))
              (Nat.le_of_lt (Nat.lt_of_lt_of_le hl hr2))
          | none =>
            simp only [strip_tags_go, if_pos rfl, htag]
            exact congrArg _ (ih rest f2 hr1 hr2)
        · simp only [strip_tags_go, if_neg hc]
          exact congrArg _ (ih rest f2 hr1 hr2)

/-- The polling loop started at line position `pos` yields exactly the
lines of the file from `pos` on. -/
theorem read_lines_eq_drop (content : List String) (pos : Nat) :
    read_lines content pos = content.drop pos := by
  have H : ∀ (n pos : Nat), content.length - pos ≤ n →
      read_lines content pos = content.drop pos := by
    intro n
    induction n with
    | zero =>
      intro pos h
      unfold read_lines
      split
      · next hlt => omega
      · next => rw [List.drop_eq_nil_of_le (by omega)]
    | succ n ih =>
      intro pos h
      unfold read_lines
      split
      · next hlt =>
        rw [List.drop_eq_getElem_cons hlt, ih (pos + 1) (by omega)]
        simp
      · next => rw [List.drop_eq_nil_of_le (by omega)]
  exact H content.length pos (by omega)

/-- Absent cancellation, `tail` yields the pre-existing last line (when
non-empty) and then exactly the appended lines, in order. -/
theorem tail_yields_eq (f : TailFile) :
    tail_yields f = last_line_yield f ++ f.appended := by
  unfold tail_yields
  rw [read_lines_eq_drop, List.drop_left]

/-- The CPython `max` fold returns an element of the list. -/
theorem foldl_max_mem (key : DirEnt → Nat) :
    ∀ (xs : List DirEnt) (x : DirEnt),
      xs.foldl (fun acc y => if key acc < key y then y else acc) x ∈ x :: xs := by
  intro xs
  induction xs with
  | nil => intro x; simp
  | cons y ys ih =>
    intro x
    simp only [List.foldl_cons]
    by_cases h : key x < key y
    · rw [if_pos h]
      have := ih y
      simp only [List.mem_cons] at this ⊢
      tauto
    · rw [if_neg h]
      have := ih x
      simp only [List.mem_cons] at this ⊢
      tauto

/-- The CPython `max` fold returns an element with a maximal key. -/
theorem foldl_max_ge (key : DirEnt → Nat) :
    ∀ (xs : List DirEnt) (x : DirEnt) (z : DirEnt), z ∈ x :: xs →
      key z ≤ key (xs.foldl (fun acc y => if key acc < key y then y else acc) x) := by
  intro xs
  induction xs with
  | nil => intro x z hz; simp at hz; subst hz; simp
  | cons y ys ih =>
    intro x z hz
    simp only [List.foldl_cons]
    by_cases h : key x < key y
    · rw [if_pos h]
      rcases List.mem_cons.mp hz with rfl | hz2
      · exact Nat.le_trans (Nat.le_of_lt h) (ih y y (List.mem_cons_self y ys))
      · rcases List.mem_cons.mp hz2 with rfl | hz3
        · exact ih z z (List.mem_cons_self z ys)
        · exact ih y z (List.mem_cons.mpr (Or.inr hz3))
    · rw [if_neg h]
      rcases List.mem_cons.mp hz with rfl | hz2
      · exact ih z z (List.mem_cons_self z ys)
      · rcases List.mem_cons.mp hz2 with rfl | hz3
        · exact Nat.le_trans (Nat.le_of_not_lt h) (ih x x (List.mem_cons_self x ys))
        · exact ih x z (List.mem_cons.mpr (Or.inr hz3))

/-- The invariant holds in every reachable state: the scanner joins the old
parser thread before spawning the new one, so a worker is retired only
once it has exited, and yields always come from the newest worker. -/
theorem reach_inv {s : Sys} (h : Reach s) : SysInv s := by
  induction h with
  | start file =>
    refine ⟨?_, ?_, ?_, ?_⟩ <;> simp [init_sys]
  | step hr hstep ih =>
    obtain ⟨i1, i2, i3, i4⟩ := ih
    cases hstep with
    | poll_rotate listing w ent hp hc hf hne =>
      refine ⟨i1, ?_, ?_, i4⟩
      · intro w2 hw2
        simp only [Option.some.injEq] at hw2
        subst hw2
        exact i2 w hc
      · intro p hp2 w2 hw2
        simp only [Option.some.injEq] at hw2
        subst hw2
        exact i3 p hp2 w hc
    | poll_empty listing hp he =>
      exact ⟨i1, i2, i3, i4⟩
    | worker_yield w l hc ha =>
      refine ⟨i1, i2, ?_, ?_⟩
      · intro p hp2 w2 hw2
        rcases List.mem_append.mp hp2 with hin | hnew
        · exact i3 p hin w2 hw2
        · simp only [List.mem_singleton] at hnew
          subst hnew
          rw [hc] at hw2
          simp only [Option.some.injEq] at hw2
          subst hw2
          exact Nat.le_refl _
      · rw [List.chain'_append]
        refine ⟨i4, List.chain'_singleton _, ?_⟩
        intro x hx y hy
        simp only [List.head?_cons, Option.mem_def, Option.some.injEq] at hy
        subst hy
        obtain ⟨hne, hxl⟩ := List.mem_getLast?_eq_getLast hx
        exact i3 x (hxl ▸ List.getLast_mem hne) w hc
    | worker_exit w hc hs ha =>
      refine ⟨i1, ?_, ?_, i4⟩
      · intro w2 hw2
        simp only [Option.some.injEq] at hw2
        subst hw2
        exact i2 w hc
      · intro p hp2 w2 hw2
        simp only [Option.some.injEq] at hw2
        subst hw2
        exact i3 p hp2 w hc
    | join_spawn w f hp hc hd =>
      refine ⟨?_, ?_, ?_, i4⟩
      · intro w2 hw2
        rcases List.mem_append.mp hw2 with hin | hnew
        · exact i1 w2 hin
        · simp only [List.mem_singleton] at hnew
          subst hnew
          exact hd
      · intro w2 hw2
        simp only [Option.some.injEq] at hw2
        subst hw2
        exact Nat.lt_succ_self _
      · intro p hp2 w2 hw2
        simp only [Option.some.injEq] at hw2
        subst hw2
        exact Nat.le_of_lt (Nat.lt_of_le_of_lt (i3 p hp2 w hc) (i2 w hc))

/-- In every reachable state at most one parser thread is running (and so
at most one log file handle is open). -/
theorem alive_count_le_one {s : Sys} (h : Reach s) : worker_alive_count s ≤ 1 := by
  obtain ⟨i1, _, _, _⟩ := reach_inv h
  unfold worker_alive_count
  rw [List.countP_append]
  have h0 : s.retired.countP (fun w => w.alive) = 0 := by
    rw [List.countP_eq_zero]
    intro w hw
    simp [i1 w hw]
  rw [h0]
  calc 0 + (s.cur.toList.countP (fun w => w.alive))
      ≤ s.cur.toList.length := by simpa using List.countP_le_length _
    _ ≤ 1 := by cases s.cur <;> simp

/-- An `any` over a conjunction whose first and last conjuncts do not
depend on the element factors through the `any`. -/
theorem any_and_const (x k : Bool) (g : String → Bool) (l : List String) :
    l.any (fun b => x && g b && k) = (x && l.any g && k) := by
  induction l with
  | nil => simp
  | cons b bs ih =>
    simp only [List.any_cons, ih]
    cases x <;> cases k <;> cases g b <;> simp

/-! ## The claims -/

/-- C1: with `log1.txt` older (mtime 100) and `log2.txt` newer (mtime 200),
`find_latest_log` selects `log2.txt`; and the line
`Gatekeeper> Currently interviewing: alice`, with nick `alice`, bot nick
`Gatekeeper` and `check_bot_nicks` enabled, dispatches exactly one
notification (the dispatch chain produces at most one per line, and here
it is `some`), carrying the highest-severity payload: priority 5 and tag
`rotating_light`. -/
theorem c1_newest_log_self_interview_notification :
    find_latest_log [⟨"log1.txt", true, 100⟩, ⟨"log2.txt", true, 200⟩] =
      some ⟨"log2.txt", true, 200⟩ ∧
    dispatch_line ⟨"alice", true, "Gatekeeper"⟩
        "Gatekeeper> Currently interviewing: alice" =
      some ⟨"Gatekeeper> Currently interviewing: alice",
        "Your interview is happening❗", "rotating_light", some 5⟩ :=
  ⟨by decide, by decide⟩

/-- C2: for every configuration and line, the dispatch chain of `log_parse`
equals first-match-wins evaluation of the ordered rule table (self,
someone-else, mention, netsplit, kick), so at most one notification is
dispatched per line; and a line satisfying both the self-interview and the
mention trigger fires exactly the self-interview notification. -/
theorem c2_rules_first_match_priority (a : Args) (line : String) :
    dispatch_line a line = first_match a line ∧
    (rule_self a line = true → rule_mention a line = true →
      dispatch_line a line = some (notif_self line)) := by
  constructor
  · by_cases h1 : rule_self a line <;> by_cases h2 : rule_other a line <;>
      by_cases h3 : rule_mention a line <;> by_cases h4 : rule_netsplit a line <;>
      by_cases h5 : rule_kick a line <;>
      simp [dispatch_line, first_match, rule_table, List.findSome?_cons,
        h1, h2, h3, h4, h5]
  · intro h1 _
    simp [dispatch_line, h1]

/-- Witness for C2 at a concrete input on which both the self-interview and
the mention trigger hold. -/
theorem c2_rules_first_match_priority_witness :
    rule_self ⟨"alice", true, "Gatekeeper"⟩
      "Gatekeeper> Currently interviewing: alice: hi" = true ∧
    rule_mention ⟨"alice", true, "Gatekeeper"⟩
      "Gatekeeper> Currently interviewing: alice: hi" = true ∧
    dispatch_line ⟨"alice", true, "Gatekeeper"⟩
        "Gatekeeper> Currently interviewing: alice: hi" =
      some (notif_self "Gatekeeper> Currently interviewing: alice: hi") :=
  ⟨by decide, by decide,
    (c2_rules_first_match_priority ⟨"alice", true, "Gatekeeper"⟩
      "Gatekeeper> Currently interviewing: alice: hi").2 (by decide) (by decide)⟩

/-- C3: for every configuration (in particular with bot-prefix
qualification enabled) and every line, the mention trigger fires exactly
when `"{nick}:"` occurs as a substring of the line with all angle-bracket
tags stripped — the right-hand side does not mention `check_bot_nicks` or
`bot_nicks` at all; and the line `charlie: are you free?` with nick
`charlie` and qualification enabled fires the mention notification. -/
theorem c3_mention_tag_stripped_unqualified (a : Args) (line : String) :
    rule_mention a line = str_contains (remove_html_tags line) (a.nick ++ ":") ∧
    dispatch_line ⟨"charlie", true, "Gatekeeper"⟩ "charlie: are you free?" =
      some (notif_mention "charlie: are you free?") :=
  ⟨rfl, by decide⟩

/-- C4: absent cancellation, `tail` yields the most recent pre-existing
line first (whenever that line exists and is non-empty — the source guard
`if last_line:`; with line terminators preserved every line of a non-empty
file is a non-empty string) and then exactly the appended lines, in append
order — no loss, duplication or reordering, stated as equality with the
appended-lines list itself. -/
theorem c4_tail_last_line_then_appended_exactly_once (f : TailFile) :
    tail_yields f = last_line_yield f ++ f.appended ∧
    (∀ l, f.initial.getLast? = some l → l ≠ "" →
      (tail_yields f).head? = some l) := by
  refine ⟨tail_yields_eq f, ?_⟩
  intro l hl hne
  rw [tail_yields_eq]
  unfold last_line_yield
  rw [hl]
  simp [hne]

/-- Witness for C4 on a concrete file with two pre-existing and two
appended lines. -/
theorem c4_tail_witness :
    tail_yields ⟨["old one", "old two"], ["new one", "new two"]⟩ =
      last_line_yield ⟨["old one", "old two"], ["new one", "new two"]⟩ ++
        ["new one", "new two"] ∧
    (tail_yields ⟨["old one", "old two"], ["new one", "new two"]⟩).head? =
      some "old two" :=
  ⟨(c4_tail_last_line_then_appended_exactly_once
      ⟨["old one", "old two"], ["new one", "new two"]⟩).1,
   (c4_tail_last_line_then_appended_exactly_once
      ⟨["old one", "old two"], ["new one", "new two"]⟩).2 "old two" rfl (by decide)⟩

/-- Counterexample to C5 as stated: a poll that finds zero eligible files
mid-run (here, right after startup on `log1.txt`, with the parser thread
alive) does execute `crit_quit`, but `sys.exit()` raises `SystemExit`
inside the scanner thread only, so the resulting state is reachable, the
parser thread is still alive, and the process is still live — it does not
end. -/
theorem c5_mid_run_empty_poll_leaves_process_alive :
    Step (init_sys "log1.txt") { init_sys "log1.txt" with phase := ScanPhase.dead } ∧
    eligible [] = [] ∧
    Reach { init_sys "log1.txt" with phase := ScanPhase.dead } ∧
    process_live { init_sys "log1.txt" with phase := ScanPhase.dead } = true ∧
    worker_alive_count { init_sys "log1.txt" with phase := ScanPhase.dead } = 1 := by
  refine ⟨Step.poll_empty _ [] rfl rfl, rfl,
    Reach.step (Reach.start _) (Step.poll_empty _ [] rfl rfl), ?_, ?_⟩ <;> decide

/-- C5 (amended): every poll that finds zero eligible files executes the
fatal-exit routine with no retry: the scanner thread dies and never polls
again (every further step leaves it dead); and a fresh startup that finds
zero eligible files starts no system at all — no parser thread exists, so
the process ends.  Mid-run, however, only the scanner thread dies (see the
counterexample). -/
theorem c5_empty_poll_fatal_scanner_no_retry (s : Sys) (listing : List DirEnt)
    (hp : s.phase = ScanPhase.polling) (he : eligible listing = []) :
    Step s { s with phase := ScanPhase.dead } ∧
    scanner_alive { s with phase := ScanPhase.dead } = false ∧
    (∀ t, Step { s with phase := ScanPhase.dead } t → t.phase = ScanPhase.dead) ∧
    startup listing = none := by
  refine ⟨Step.poll_empty s listing hp he, by simp [scanner_alive], ?_, ?_⟩
  · intro t ht
    cases ht with
    | poll_rotate listing2 w ent hp2 hc2 hf2 hne2 => simp at hp2
    | poll_empty listing2 hp2 he2 => rfl
    | worker_yield w l hc2 ha2 => rfl
    | worker_exit w hc2 hs2 ha2 => rfl
    | join_spawn w f hp2 hc2 hd2 => simp at hp2
  · simp [startup, find_latest_log, he]

/-- Witness for the amended C5 at a concrete polling state and the empty
listing. -/
theorem c5_empty_poll_fatal_witness :
    Step (init_sys "logA.txt") { init_sys "logA.txt" with phase := ScanPhase.dead } ∧
    startup ([] : List DirEnt) = none := by
  have h := c5_empty_poll_fatal_scanner_no_retry (init_sys "logA.txt") [] rfl rfl
  exact ⟨h.1, h.2.2.2⟩

/-- C6: from any polling state with a live parser thread, a poll that finds
the directory empty only kills the scanner thread: the tailer is untouched
(same current worker, same trace), it can still yield further lines, and
the process stays live; a fresh startup that finds zero eligible files, in
contrast, starts nothing. -/
theorem c6_mid_run_empty_does_not_crash_tailer (s : Sys) (w : Worker)
    (listing : List DirEnt)
    (hp : s.phase = ScanPhase.polling) (hc : s.cur = some w)
    (ha : w.alive = true) (he : eligible listing = []) :
    Step s { s with phase := ScanPhase.dead } ∧
    ({ s with phase := ScanPhase.dead }).cur = some w ∧
    ({ s with phase := ScanPhase.dead }).trace = s.trace ∧
    (∀ l, Step { s with phase := ScanPhase.dead }
        { s with phase := ScanPhase.dead, trace := s.trace ++ [(w.wid, l)] }) ∧
    process_live { s with phase := ScanPhase.dead } = true ∧
    startup listing = none := by
  refine ⟨Step.poll_empty s listing hp he, by simpa using hc, rfl, ?_, ?_, ?_⟩
  · intro l
    exact Step.worker_yield _ w l (by simpa using hc) ha
  · have hcount : 0 < worker_alive_count { s with phase := ScanPhase.dead } := by
      unfold worker_alive_count
      rw [hc]
      rw [List.countP_append]
      have h1 : (some w).toList.countP (fun w => w.alive) = 1 := by
        simp [Option.toList, List.countP_cons, ha]
      simp only [Option.toList] at h1 ⊢
      omega
    simp [process_live, hcount]
  · simp [startup, find_latest_log, he]

/-- Witness for C6 at the startup state on `log1.txt` and the empty
listing. -/
theorem c6_mid_run_empty_witness :
    Step (init_sys "log1.txt") { init_sys "log1.txt" with phase := ScanPhase.dead } ∧
    process_live { init_sys "log1.txt" with phase := ScanPhase.dead } = true := by
  have h := c6_mid_run_empty_does_not_crash_tailer (init_sys "log1.txt")
    ⟨0, "log1.txt", false, true⟩ [] rfl rfl rfl rfl
  exact ⟨h.1, h.2.2.2.2.1⟩

/-- C7: for every configuration and line, the kick trigger fires exactly
when the line contains the operator nick AND some configured bot nick AND
the keyword `kick` matched against the lowercased line — so only the
keyword comparison is case-insensitive.  The three concrete cases show the
keyword matching case-insensitively while the nick and the bot nick match
case-sensitively. -/
theorem c7_kick_trigger_characterization (a : Args) (line : String) :
    rule_kick a line =
      (str_contains line a.nick &&
        (py_split_comma a.bot_nicks).any (fun bot => str_contains line bot) &&
        str_contains (py_lower line) "kick") ∧
    rule_kick ⟨"alice", true, "Gatekeeper"⟩ "Gatekeeper KICKed alice" = true ∧
    rule_kick ⟨"alice", true, "Gatekeeper"⟩ "Gatekeeper kicked ALICE" = false ∧
    rule_kick ⟨"alice", true, "Gatekeeper"⟩ "gatekeeper kicked alice" = false := by
  refine ⟨?_, by decide, by decide, by decide⟩
  show check_words a line ["kick"] true = _
  unfold check_words
  simp only [List.any_cons, List.any_nil, Bool.or_false, if_pos rfl]
  exact any_and_const _ _ _ _

/-- Counterexample to C8 as stated: with two eligible files of equal mtime,
`find_latest_log` returns whichever comes first in the directory
enumeration — the two listings below hold the same set of files (they are
permutations of each other) yet yield different results, so the tie-break
is not a function of the set of files, and in the second listing the
lexicographically larger name wins. -/
theorem c8_tie_break_depends_on_enumeration_order :
    find_latest_log [⟨"a.txt", true, 5⟩, ⟨"b.txt", true, 5⟩] =
      some ⟨"a.txt", true, 5⟩ ∧
    find_latest_log [⟨"b.txt", true, 5⟩, ⟨"a.txt", true, 5⟩] =
      some ⟨"b.txt", true, 5⟩ ∧
    ([⟨"a.txt", true, 5⟩, ⟨"b.txt", true, 5⟩] : List DirEnt).Perm
      [⟨"b.txt", true, 5⟩, ⟨"a.txt", true, 5⟩] :=
  ⟨by decide, by decide, List.Perm.swap _ _ _⟩

/-- C8 (amended): for every listing with at least one eligible file,
`find_latest_log` returns an eligible file whose modification timestamp is
maximal among the eligible files; ties are broken by directory-enumeration
order (the first maximal entry wins), which is not determined by the set
of files alone and need not be lexicographic. -/
theorem c8_latest_eligible_maximal_mtime (listing : List DirEnt)
    (h : eligible listing ≠ []) :
    ∃ m, find_latest_log listing = some m ∧ m ∈ eligible listing ∧
      ∀ g ∈ eligible listing, g.mtime ≤ m.mtime := by
  cases he : eligible listing with
  | nil => exact absurd he h
  | cons x xs =>
    have hf : find_latest_log listing =
        some (xs.foldl (fun acc y => if acc.mtime < y.mtime then y else acc) x) := by
      simp only [find_latest_log, he]
      rfl
    rw [hf]
    exact ⟨_, rfl, foldl_max_mem (fun f => f.mtime) xs x,
      fun g hg => foldl_max_ge (fun f => f.mtime) xs x g hg⟩

/-- Witness for the amended C8 on a listing whose only other entry is an
ignored OS artifact (with a larger mtime, which must not be selected). -/
theorem c8_latest_eligible_witness :
    eligible [⟨"log1.txt", true, 3⟩, ⟨".DS_Store", true, 9⟩] ≠ [] ∧
    (∃ m, find_latest_log [⟨"log1.txt", true, 3⟩, ⟨".DS_Store", true, 9⟩] = some m ∧
      m ∈ eligible [⟨"log1.txt", true, 3⟩, ⟨".DS_Store", true, 9⟩] ∧
      ∀ g ∈ eligible [⟨"log1.txt", true, 3⟩, ⟨".DS_Store", true, 9⟩],
        g.mtime ≤ m.mtime) :=
  ⟨by decide, c8_latest_eligible_maximal_mtime
    [⟨"log1.txt", true, 3⟩, ⟨".DS_Store", true, 9⟩] (by decide)⟩

/-- C9: in every reachable state of the orchestration — whose rotation step
sets the old worker's stop event and whose spawn step is enabled only once
the old worker has exited (`parser.join()`) — at most one parser thread is
alive (hence at most one log file handle is open, a worker holding its file
open exactly while alive), the worker ids along the yield trace are
non-decreasing, and the yields of any one worker form a contiguous block:
lines of two files are never interleaved. -/
theorem c9_serialized_handoff_no_interleaving (s : Sys) (h : Reach s) :
    worker_alive_count s ≤ 1 ∧
    List.Chain' (fun a b => a.1 ≤ b.1) s.trace ∧
    (∀ (i j k : Nat) (hij : i < j) (hjk : j < k) (hk : k < s.trace.length),
      (s.trace.get ⟨i, by omega⟩).1 = (s.trace.get ⟨k, hk⟩).1 →
      (s.trace.get ⟨j, by omega⟩).1 = (s.trace.get ⟨i, by omega⟩).1) := by
  obtain ⟨_, _, _, i4⟩ := reach_inv h
  refine ⟨alive_count_le_one h, i4, ?_⟩
  haveI : IsTrans (Nat × String) (fun a b => a.1 ≤ b.1) :=
    ⟨fun a b c h1 h2 => Nat.le_trans h1 h2⟩
  have hpw := List.chain'_iff_pairwise.mp i4
  rw [List.pairwise_iff_getElem] at hpw
  intro i j k hij hjk hk hik
  have h1 : (s.trace.get ⟨i, by omega⟩).1 ≤ (s.trace.get ⟨j, by omega⟩).1 := by
    have := hpw i j (by omega) (by omega) hij
    simpa using this
  have h2 : (s.trace.get ⟨j, by omega⟩).1 ≤ (s.trace.get ⟨k, hk⟩).1 := by
    have := hpw j k (by omega) (by omega) hjk
    simpa using this
  omega

/-- Witness for C9 at the concrete reachable startup state. -/
theorem c9_serialized_handoff_witness :
    worker_alive_count (init_sys "log.txt") ≤ 1 ∧
    List.Chain' (fun a b => a.1 ≤ b.1) (init_sys "log.txt").trace :=
  ⟨(c9_serialized_handoff_no_interleaving (init_sys "log.txt")
      (Reach.start "log.txt")).1,
   (c9_serialized_handoff_no_interleaving (init_sys "log.txt")
      (Reach.start "log.txt")).2.1⟩

/-- C10: when bot-prefix qualification is disabled by configuration
(`check_bot_nicks = false`), the self-interview and someone-else-interview
triggers also match their marker phrase against the tag-stripped line —
the same `remove_html_tags` the mention trigger uses — rather than against
the raw line. -/
theorem c10_disabled_qualification_uses_stripped_line (a : Args)
    (h : a.check_bot_nicks = false) (line : String) :
    rule_self a line =
      str_contains (remove_html_tags line)
        ("Currently interviewing: " ++ a.nick) ∧
    rule_other a line =
      str_contains (remove_html_tags line) "Currently interviewing:" := by
  unfold rule_self rule_other check_trigger
  rw [h]
  exact ⟨rfl, rfl⟩

/-- Witness for C10: with qualification disabled, a tag inside the marker
phrase is stripped before matching (the raw line does not contain the
trigger, the stripped line does). -/
theorem c10_disabled_qualification_witness :
    (⟨"alice", false, "Gatekeeper"⟩ : Args).check_bot_nicks = false ∧
    rule_self ⟨"alice", false, "Gatekeeper"⟩ "Currently <b>interviewing: alice" =
      str_contains (remove_html_tags "Currently <b>interviewing: alice")
        ("Currently interviewing: " ++ "alice") ∧
    rule_self ⟨"alice", false, "Gatekeeper"⟩ "Currently <b>interviewing: alice" = true :=
  ⟨rfl,
   (c10_disabled_qualification_uses_stripped_line ⟨"alice", false, "Gatekeeper"⟩
      rfl "Currently <b>interviewing: alice").1,
   by decide⟩

end InterviewNotify
